import Mathlib

/-!
Verification of the Availability Gap Engine of the QuickWash backend
(`src/main.py`, `src/mainV2.py`, `src/mainV3.py`).

Shallow embedding conventions:
* A UTC instant is an `Int`, the number of whole seconds since an arbitrary
  epoch (day boundaries fall at multiples of 86400, as for the Unix epoch).
  Python `datetime` arithmetic (`astimezone`, `replace`, subtraction,
  comparison) is embedded as exact integer arithmetic at second granularity;
  `.total_seconds() / 60` comparisons against an integer threshold and
  `int(...)` truncation of a positive quotient are embedded exactly
  (both are exact at this granularity, so no float artifact is lost).
* A Python `str` is a `List Char` (ASCII-faithful; `str.strip`, `str.split`,
  `int(...)` and substring tests are modelled on ASCII characters exactly
  as CPython behaves on ASCII input).
* A raised exception is `none` in an `Option` result; the only statements in
  `calculeaza_gaps` of `mainV2.py`/`mainV3.py` that can raise on well-formed
  instants are the `datetime.replace(hour=h, ...)` calls, which raise
  `ValueError` unless `0 ≤ h ≤ 23`.
-/

namespace QuickWash

/-- The fixed Romanian offset `timezone(timedelta(hours=2))` of
`mainV2.py` line 149 / `mainV3.py` line 153, in seconds. -/
def RO_OFFSET_SECONDS : Int := 7200

/-- Local (UTC+2) clock value of a UTC instant:
`start_window_utc.astimezone(RO_OFFSET)` as seconds on the local clock. -/
def toLocal (t : Int) : Int := t + RO_OFFSET_SECONDS

/-- Local-clock second at local midnight of the local calendar day
containing instant `t` (the date kept by `now_ro.replace(...)`). -/
def localDayStart (t : Int) : Int := 86400 * (toLocal t / 86400)

/-- `now_ro.hour * 60 + now_ro.minute` for UTC instant `t`: the local
hour-of-day scaled by 60.  The Python comparison
`start_h <= current_hour < end_h` with `current_hour = hour + minute/60`
and integer bounds `start_h`, `end_h` is exactly
`start_h * 60 ≤ curMin ∧ curMin < end_h * 60`. -/
def curMin (t : Int) : Int := ((toLocal t) % 86400) / 60

/-- UTC instant of `now_ro.replace(hour=h, minute=0, second=0)`
(`astimezone(timezone.utc)` applied): local midnight of `t`'s local day
plus `h` hours, shifted back to UTC.  Caller must separately model the
`ValueError` raised when `h ∉ [0, 23]`. -/
def replaceHourUTC (t h : Int) : Int := localDayStart t + h * 3600 - RO_OFFSET_SECONDS

/-! ### Python string helpers (ASCII model) -/

/-- Python whitespace stripped by `str.strip()` (ASCII subset). -/
def isPySpace (c : Char) : Bool :=
  c = ' ' || c = '\t' || c = '\n' || c = '\r' || c = '\x0b' || c = '\x0c'

/-- `str.strip()` on a character list. -/
def pyStrip (cs : List Char) : List Char :=
  ((cs.dropWhile isPySpace).reverse.dropWhile isPySpace).reverse

/-- `str.split(sep)` for a one-character separator: splits at every
occurrence, yielding at least one (possibly empty) piece. -/
def splitChar (sep : Char) : List Char → List (List Char)
  | [] => [[]]
  | c :: cs =>
    let r := splitChar sep cs
    if c = sep then [] :: r
    else
      match r with
      | [] => [[c]]
      | p :: ps => (c :: p) :: ps

/-- Digit-run parser for Python `int(...)`: a nonempty digit sequence in
which a single underscore may separate two digits (`PEP 515`). -/
def pyDigits : Int → List Char → Option Int
  | acc, [] => some acc
  | acc, '_' :: c :: cs =>
    if c.isDigit then pyDigits (10 * acc + ((c.toNat : Int) - 48)) cs else none
  | _, ['_'] => none
  | acc, c :: cs =>
    if c.isDigit then pyDigits (10 * acc + ((c.toNat : Int) - 48)) cs else none

/-- `int(s)` for a Python `str`: strip whitespace, optional sign, digits.
Returns `none` where CPython raises `ValueError`. -/
def pyInt (cs : List Char) : Option Int :=
  match pyStrip cs with
  | [] => none
  | '+' :: rest =>
    match rest with
    | [] => none
    | c :: cs' => if c.isDigit then pyDigits ((c.toNat : Int) - 48) cs' else none
  | '-' :: rest =>
    (match rest with
     | [] => none
     | c :: cs' =>
       if c.isDigit then pyDigits ((c.toNat : Int) - 48) cs' else none).map (0 - ·)
  | c :: cs' => if c.isDigit then pyDigits ((c.toNat : Int) - 48) cs' else none

/-- `pat` is a leading subsequence of `s` (helper for substring test). -/
def startsWithL : List Char → List Char → Bool
  | [], _ => true
  | _ :: _, [] => false
  | p :: ps, c :: cs => p = c && startsWithL ps cs

/-- Python `pat in s` substring containment. -/
def containsSub (pat : List Char) : List Char → Bool
  | [] => pat.isEmpty
  | c :: cs => startsWithL pat (c :: cs) || containsSub pat cs

/-- ASCII `str.lower()`. -/
def lowerL (cs : List Char) : List Char :=
  cs.map fun c => if 'A' ≤ c ∧ c ≤ 'Z' then Char.ofNat (c.toNat + 32) else c

/-- The default program string `"00:00 - 24:00"`. -/
def defaultProgram : List Char := "00:00 - 24:00".toList

/-! ### Schedule parser (`parse_schedule`, mainV2.py lines 127-137;
the identical mainV3.py lines 141-148) -/

/-- The `try:` body of `parse_schedule`:
`parts = s.split('-'); int(parts[0].strip().split(':')[0]), int(parts[1]...)`.
`none` models the caught exception (`IndexError` on `parts[1]` or
`ValueError` from `int`). -/
def parseAttempt (cs : List Char) : Option (Int × Int) :=
  let parts := splitChar '-' cs
  match parts[1]? with
  | none => none
  | some p1 =>
    match pyInt ((splitChar ':' (pyStrip (parts.headD []))).headD []),
          pyInt ((splitChar ':' (pyStrip p1)).headD []) with
    | some a, some b => some (a, b)
    | _, _ => none

/-- `parse_schedule` of mainV2.py lines 127-137: `(0, 24)` for an empty
string or one containing `"00:00 - 24:00"`, else the parsed hour pair,
falling back to `(0, 24)` on any exception. -/
def parse_schedule (cs : List Char) : Int × Int :=
  if cs = [] ∨ containsSub defaultProgram cs then (0, 24)
  else (parseAttempt cs).getD (0, 24)

/-! ### Data model -/

/-- A reservation row as consumed by `calculeaza_gaps`
(`datetime.fromisoformat(res['ora_start'])` etc. already applied). -/
structure Rezervare where
  ora_start : Int
  ora_sfarsit : Int
deriving DecidableEq, Repr

/-- An emitted free interval (`IntervalLiber`).  `endT` embeds the dict
key `"end"` (a reserved word in Lean); `minute_disponibile` is
`int(gap_duration)`, the floored minute count of a positive gap. -/
structure Gap where
  start : Int
  endT : Int
  minute_disponibile : Int
deriving DecidableEq, Repr

/-- Stable insertion used by `sortRez`: a later element goes after all
already-placed elements with a key ≤ its own, as Python's stable sort. -/
def insertRez (r : Rezervare) : List Rezervare → List Rezervare
  | [] => [r]
  | s :: ss =>
    if r.ora_start ≤ s.ora_start then r :: s :: ss else s :: insertRez r ss

/-- `sorted(rezervari, key=lambda x: x['ora_start'])` (stable). -/
def sortRez (rs : List Rezervare) : List Rezervare :=
  rs.foldr insertRez []

/-! ### Open-interval construction and window normalisation
(mainV2.py lines 154-206) -/

/-- `open_intervals` from `(ora_deschidere, ora_inchidere)`:
one interval for a normal program, two for an overnight one,
`(0, 24)` for the equal case. -/
def openIntervals (o c : Int) : List (Int × Int) :=
  if o < c then [(o, c)]
  else if c < o then [(0, c), (o, 24)]
  else [(0, 24)]

/-- Outcome of the normalisation loop over `open_intervals`. -/
inductive SlotResult where
  | openNow (closing : Int)
  | nextOpen (nh closing : Int)
  | closed
deriving DecidableEq, Repr

/-- The mainV2.py lines 180-192 loop: first interval containing the
current local hour wins (`break`); otherwise the smallest later start is
remembered together with its closing hour (`acc`). -/
def findSlot (cm : Int) (acc : Option (Int × Int)) : List (Int × Int) → SlotResult
  | [] =>
    match acc with
    | some p => SlotResult.nextOpen p.1 p.2
    | none => SlotResult.closed
  | (s, e) :: rest =>
    if s * 60 ≤ cm ∧ cm < e * 60 then SlotResult.openNow e
    else
      let acc' :=
        if s * 60 > cm then
          match acc with
          | none => some (s, e)
          | some p => if s < p.1 then some (s, e) else some p
        else acc
      findSlot cm acc' rest

/-- The mainV3.py lines 170-181 loop: identical control flow, but the
state is carried as `(next_open_hour, current_closing_hour)` with the
dead initial default `current_closing_hour = 24` made explicit. -/
def findSlot3 (cm : Int) (next? : Option Int) (closing : Int) :
    List (Int × Int) → SlotResult
  | [] =>
    match next? with
    | some nh => SlotResult.nextOpen nh closing
    | none => SlotResult.closed
  | (s, e) :: rest =>
    if s * 60 ≤ cm ∧ cm < e * 60 then SlotResult.openNow e
    else
      match next? with
      | none =>
        if s * 60 > cm then findSlot3 cm (some s) e rest
        else findSlot3 cm none closing rest
      | some nh =>
        if s * 60 > cm ∧ s < nh then findSlot3 cm (some s) e rest
        else findSlot3 cm (some nh) closing rest

/-! ### Gap scanner / clipper (mainV2.py lines 212-281) -/

/-- `limit_end` computation of mainV2.py lines 230-243 / 258-270:
start from `cap` (`res_start` or `end_window_utc`); when the active
closing hour is not 24, clip at today's closing instant.  `none` models
the `ValueError` of `replace(hour=closing)` for `closing ∉ [0, 23]`. -/
def clipLimit (closing cur cap : Int) : Option Int :=
  if closing = 24 then some cap
  else if 0 ≤ closing ∧ closing < 24 then
    let bdry := replaceHourUTC cur closing
    some (if bdry < cap then bdry else cap)
  else none

/-- Lines 245-252 / 272-279: emit `{start, end, minute_disponibile}` when
`limit_end > current_time` and the duration reaches the minimum.
`gap_duration >= durata_minima_minute` with
`gap_duration = (lim - cur)/60` (exact) is `60 * durata ≤ lim - cur`;
`int(gap_duration)` of the positive quotient is `(lim - cur).toNat / 60`. -/
def emitGap (cur lim durata : Int) : Option Gap :=
  if cur < lim ∧ 60 * durata ≤ lim - cur then
    some ⟨cur, lim, (((lim - cur).toNat / 60 : Nat) : Int)⟩
  else none

/-- The reservation scan of mainV2.py lines 221-279: walk the sorted
reservations advancing the cursor monotonically, emit clipped gaps, then
emit the final gap up to `end_window_utc`.  `none` propagates a
`replace` exception from `clipLimit`. -/
def scanRez (closing durata endW : Int) :
    List Rezervare → Int → List Gap → Option (List Gap)
  | [], cur, gs =>
    if cur < endW then
      match clipLimit closing cur endW with
      | none => none
      | some lim => some (gs ++ (emitGap cur lim durata).toList)
    else some gs
  | r :: rs, cur, gs =>
    if r.ora_start > cur then
      match clipLimit closing cur r.ora_start with
      | none => none
      | some lim =>
        scanRez closing durata endW rs
          (if r.ora_sfarsit > cur then r.ora_sfarsit else cur)
          (gs ++ (emitGap cur lim durata).toList)
    else
      scanRez closing durata endW rs
        (if r.ora_sfarsit > cur then r.ora_sfarsit else cur) gs

/-- `calculeaza_gaps` of mainV2.py lines 139-281.  `none` models a raised
exception (only possible from `replace(hour=h)` with `h ∉ [0, 23]`). -/
def calculeaza_gapsV2 (startW endW : Int) (rez : List Rezervare)
    (durata : Int) (program : List Char) : Option (List Gap) :=
  let oc := parse_schedule program
  match findSlot (curMin startW) none (openIntervals oc.1 oc.2) with
  | SlotResult.closed => some []
  | SlotResult.openNow cl =>
    if startW ≥ endW then some []
    else scanRez cl durata endW (sortRez rez) startW []
  | SlotResult.nextOpen nh cl =>
    if 0 ≤ nh ∧ nh < 24 then
      let adj := replaceHourUTC startW nh
      if adj ≥ endW then some []
      else scanRez cl durata endW (sortRez rez) adj []
    else none

/-- `calculeaza_gaps` of mainV3.py lines 150-239: token-identical to the
mainV2 version except that the normalisation loop carries the explicit
(dead) default `current_closing_hour = 24`; the scan loop and final-gap
code are the same statements, so `scanRez` is shared. -/
def calculeaza_gapsV3 (startW endW : Int) (rez : List Rezervare)
    (durata : Int) (program : List Char) : Option (List Gap) :=
  let oc := parse_schedule program
  match findSlot3 (curMin startW) none 24 (openIntervals oc.1 oc.2) with
  | SlotResult.closed => some []
  | SlotResult.openNow cl =>
    if startW ≥ endW then some []
    else scanRez cl durata endW (sortRez rez) startW []
  | SlotResult.nextOpen nh cl =>
    if 0 ≤ nh ∧ nh < 24 then
      let adj := replaceHourUTC startW nh
      if adj ≥ endW then some []
      else scanRez cl durata endW (sortRez rez) adj []
    else none

/-! ### The earlier iteration (`main.py` lines 102-142): no schedule
handling, no clipping, no exception source. -/

/-- The main.py scan loop: same cursor discipline, gap capped only by the
next reservation start or the window end. -/
def scanMain (durata endW : Int) : List Rezervare → Int → List Gap → List Gap
  | [], cur, gs =>
    if cur < endW then gs ++ (emitGap cur endW durata).toList else gs
  | r :: rs, cur, gs =>
    if r.ora_start > cur then
      scanMain durata endW rs
        (if r.ora_sfarsit > cur then r.ora_sfarsit else cur)
        (gs ++ (emitGap cur r.ora_start durata).toList)
    else
      scanMain durata endW rs
        (if r.ora_sfarsit > cur then r.ora_sfarsit else cur) gs

/-- `calculeaza_gaps` of main.py lines 102-142. -/
def calculeaza_gapsMain (startW endW : Int) (rez : List Rezervare)
    (durata : Int) : List Gap :=
  scanMain durata endW (sortRez rez) startW []

/-- Gap ordering relation of the spec: strictly ascending starts and
non-overlap (`a` ends no later than `b` starts). -/
def GapRel (a b : Gap) : Prop := a.start < b.start ∧ a.endT ≤ b.start

instance : DecidableRel GapRel := fun a b => by
  unfold GapRel; infer_instance

/-! ## Claims -/

/-- C9: Scenario A.  Window 10:00-12:00 UTC (instants 36000/43200 on the
epoch day), schedule `"08:00 - 20:00"`, fixed +2h offset, one reservation
10:30-11:00 UTC, minimum duration 15: exactly the two intervals
`[10:00, 10:30]` (30 minutes) and `[11:00, 12:00]` (60 minutes), in order. -/
theorem c9_scenario_A :
    calculeaza_gapsV2 36000 43200 [⟨37800, 39600⟩] 15 ("08:00 - 20:00".toList)
      = some [⟨36000, 37800, 30⟩, ⟨39600, 43200, 60⟩] := by decide

/-- C1 counterexample: with reservations `(50, 0)` and `(60, 70)` (the first
malformed, start > end) in the window `[0, 100]`, `calculeaza_gaps` emits
`[0,50]`, `[0,60]`, `[70,100]` — two intervals share start `0` and overlap,
so the output is neither strictly ordered by start nor pairwise
non-overlapping, refuting the claim for arbitrary reservation lists. -/
theorem c1_counterexample :
    calculeaza_gapsV2 0 100 [⟨50, 0⟩, ⟨60, 70⟩] 0 defaultProgram
        = some [⟨0, 50, 0⟩, ⟨0, 60, 1⟩, ⟨70, 100, 0⟩] ∧
    ¬ List.Pairwise GapRel [⟨0, 50, 0⟩, ⟨0, 60, 1⟩, ⟨70, 100, 0⟩] := by decide

/-- C2: evaluation at the failing input.  A malformed reservation
`(3000, 3000)` (start ≥ end) in the window `[0, 6000]` is not filtered out:
it splits the single free interval `[0, 6000]` into `[0, 3000]` and
`[3000, 6000]`, so removing it changes the output of `calculeaza_gaps`. -/
theorem c2_malformed_influences_result :
    calculeaza_gapsV2 0 6000 [⟨3000, 3000⟩] 0 defaultProgram
        = some [⟨0, 3000, 50⟩, ⟨3000, 6000, 50⟩] ∧
    calculeaza_gapsV2 0 6000 [] 0 defaultProgram
        = some [⟨0, 6000, 100⟩] ∧
    calculeaza_gapsV2 0 6000 [⟨3000, 3000⟩] 0 defaultProgram ≠
      calculeaza_gapsV2 0 6000 [] 0 defaultProgram := by decide

/-- C3 counterexample: for the out-of-range schedule `"25:00 - 30:00"`
(parsed to `(25, 30)`), `calculeaza_gaps` reaches
`now_ro.replace(hour=25, ...)`, which raises `ValueError` (`none` in the
embedding) — it does not return normally and does not fall back to
`(0, 24)`. -/
theorem c3_counterexample :
    calculeaza_gapsV2 0 3600 [] 0 ("25:00 - 30:00".toList) = none := by decide

/-- C4 counterexample: even with `windowStart = windowEnd`, the schedule
`"25:00 - 30:00"` makes `calculeaza_gaps` raise (`none`) before the
`adjusted_start >= end_window` guard, so the result is not the empty list
for every operating-hours string. -/
theorem c4_counterexample :
    (0 : Int) ≥ (0 : Int) ∧
    calculeaza_gapsV2 0 0 [] 5 ("25:00 - 30:00".toList) ≠ some [] := by decide

/-- C6 counterexample: `"08:00 - 20:00 nonstop"` lower-cases to itself and
contains both tokens `"non"` and `"stop"`, yet `parse_schedule` returns
`(8, 20)`, not `(0, 24)`: the token normalisation lives in the creation-time
validator (`SpalatorieCreate.validate_program`), not in `parse_schedule`. -/
theorem c6_counterexample :
    containsSub ("non".toList) (lowerL ("08:00 - 20:00 nonstop".toList)) = true ∧
    containsSub ("stop".toList) (lowerL ("08:00 - 20:00 nonstop".toList)) = true ∧
    parse_schedule ("08:00 - 20:00 nonstop".toList) ≠ (0, 24) := by decide

/-- C6 (amended): `parse_schedule` returns `(0, 24)` for the empty string
and for every string containing the literal substring `"00:00 - 24:00"`
(the condition the code actually tests); the non/stop token rule belongs to
the creation-time validator, not to `parse_schedule`. -/
theorem c6_parse_default (cs : List Char)
    (h : cs = [] ∨ containsSub defaultProgram cs = true) :
    parse_schedule cs = (0, 24) := by
  unfold parse_schedule
  rw [if_pos h]

/-- Witness for C6 (amended) at the empty string and at a string containing
`"00:00 - 24:00"`. -/
theorem c6_parse_default_witness :
    parse_schedule [] = (0, 24) ∧
    parse_schedule ("program: 00:00 - 24:00".toList) = (0, 24) :=
  ⟨c6_parse_default [] (Or.inl rfl),
   c6_parse_default ("program: 00:00 - 24:00".toList) (Or.inr (by decide))⟩

/-- Normalisation outcome when the single interval of a normal program is
already past: no interval contains the current hour and none starts later. -/
theorem findSlot_single_closed {cm o c : Int} (h1 : ¬(o * 60 ≤ cm ∧ cm < c * 60))
    (h2 : ¬(o * 60 > cm)) : findSlot cm none [(o, c)] = SlotResult.closed := by
  simp only [findSlot, if_neg h1, if_neg h2]

/-- C5: for a non-overnight schedule parsing to `openHour < closeHour`,
once the local hour-of-day of `windowStart` has reached `closeHour`
(`closeHour * 60 ≤ curMin windowStart`), `calculeaza_gaps` returns the
empty list for every reservation list, window end and minimum duration. -/
theorem c5_no_later_opening (startW endW durata : Int) (rez : List Rezervare)
    (program : List Char) (o c : Int)
    (hp : parse_schedule program = (o, c)) (hoc : o < c)
    (hcm : c * 60 ≤ curMin startW) :
    calculeaza_gapsV2 startW endW rez durata program = some [] := by
  unfold calculeaza_gapsV2
  rw [hp]
  simp only
  rw [openIntervals, if_pos hoc,
    findSlot_single_closed (by omega) (by omega)]

/-- Witness for C5: schedule `"08:00 - 10:00"`, window start at local
11:00 (UTC instant 32400 = 09:00 UTC on the epoch day). -/
theorem c5_no_later_opening_witness :
    calculeaza_gapsV2 32400 100000 [] 0 ("08:00 - 10:00".toList) = some [] :=
  c5_no_later_opening 32400 100000 0 [] _ 8 10 (by decide) (by decide) (by decide)

/-- A strictly negative minimum duration passes the emission test exactly
when zero does, and the emitted record does not mention it. -/
theorem emitGap_neg {d : Int} (hd : d < 0) (cur lim : Int) :
    emitGap cur lim d = emitGap cur lim 0 := by
  unfold emitGap
  by_cases h : cur < lim
  · rw [if_pos ⟨h, by omega⟩, if_pos ⟨h, by omega⟩]
  · rw [if_neg (fun hc => h hc.1), if_neg (fun hc => h hc.1)]

/-- The scan with a strictly negative minimum duration equals the scan
with minimum duration zero. -/
theorem scanRez_neg (closing endW : Int) {d : Int} (hd : d < 0) :
    ∀ (rs : List Rezervare) (cur : Int) (gs : List Gap),
      scanRez closing d endW rs cur gs = scanRez closing 0 endW rs cur gs := by
  intro rs
  induction rs with
  | nil =>
    intro cur gs
    unfold scanRez
    by_cases h : cur < endW
    · rw [if_pos h, if_pos h]
      cases clipLimit closing cur endW with
      | none => rfl
      | some lim => dsimp only; rw [emitGap_neg hd]
    · rw [if_neg h, if_neg h]
  | cons r rs ih =>
    intro cur gs
    unfold scanRez
    by_cases h : r.ora_start > cur
    · rw [if_pos h, if_pos h]
      cases clipLimit closing cur r.ora_start with
      | none => rfl
      | some lim => dsimp only; rw [emitGap_neg hd, ih]
    · rw [if_neg h, if_neg h, ih]

/-- C8: a strictly negative minimum duration is equivalent to zero: for
every window, reservation list and schedule string, `calculeaza_gaps` with
`m < 0` returns exactly what it returns with `0`. -/
theorem c8_negative_durata (startW endW : Int) (rez : List Rezervare)
    (program : List Char) {m : Int} (hm : m < 0) :
    calculeaza_gapsV2 startW endW rez m program
      = calculeaza_gapsV2 startW endW rez 0 program := by
  unfold calculeaza_gapsV2
  simp only
  cases findSlot (curMin startW) none
      (openIntervals (parse_schedule program).1 (parse_schedule program).2) with
  | closed => rfl
  | openNow cl =>
    simp only
    by_cases h : startW ≥ endW
    · rw [if_pos h, if_pos h]
    · rw [if_neg h, if_neg h, scanRez_neg _ _ hm]
  | nextOpen nh cl =>
    simp only
    by_cases h : 0 ≤ nh ∧ nh < 24
    · rw [if_pos h, if_pos h]
      by_cases h2 : replaceHourUTC startW nh ≥ endW
      · rw [if_pos h2, if_pos h2]
      · rw [if_neg h2, if_neg h2, scanRez_neg _ _ hm]
    · rw [if_neg h, if_neg h]

/-- Witness for C8 at `m = -5`. -/
theorem c8_negative_durata_witness :
    calculeaza_gapsV2 0 6000 [⟨1000, 2000⟩] (-5) defaultProgram
      = calculeaza_gapsV2 0 6000 [⟨1000, 2000⟩] 0 defaultProgram :=
  c8_negative_durata 0 6000 [⟨1000, 2000⟩] defaultProgram (by decide)

/-- An emitted gap respects the minimum duration and has a non-negative
minute count: the guard gives `60 * d ≤ lim - cur` and the stored count is
the floored minute quotient. -/
theorem emitGap_minutes {cur lim d : Int} {g : Gap}
    (h : emitGap cur lim d = some g) :
    d ≤ g.minute_disponibile ∧ 0 ≤ g.minute_disponibile := by
  unfold emitGap at h
  split at h
  · cases h
    rename_i hc
    dsimp only
    refine ⟨?_, by omega⟩
    rcases hc with ⟨hlt, hd⟩
    by_cases hd0 : d ≤ 0
    · omega
    · have h1 : d.toNat * 60 ≤ (lim - cur).toNat := by omega
      have h2 : d.toNat ≤ (lim - cur).toNat / 60 :=
        (Nat.le_div_iff_mul_le (by omega)).mpr h1
      omega
  · cases h

/-- Scan invariant for C7: if every accumulated gap already satisfies the
duration bound, every gap of a successful scan does. -/
theorem scanRez_minutes (closing d endW : Int) :
    ∀ (rs : List Rezervare) (cur : Int) (gs gs' : List Gap),
      (∀ g ∈ gs, d ≤ g.minute_disponibile ∧ 0 ≤ g.minute_disponibile) →
      scanRez closing d endW rs cur gs = some gs' →
      ∀ g ∈ gs', d ≤ g.minute_disponibile ∧ 0 ≤ g.minute_disponibile := by
  intro rs
  induction rs with
  | nil =>
    intro cur gs gs' hgs hscan
    unfold scanRez at hscan
    split at hscan
    · cases hcl : clipLimit closing cur endW with
      | none => rw [hcl] at hscan; cases hscan
      | some lim =>
        rw [hcl] at hscan
        dsimp only at hscan
        cases hscan
        intro g hg
        rcases List.mem_append.mp hg with hg | hg
        · exact hgs g hg
        · cases hemit : emitGap cur lim d with
          | none => rw [hemit] at hg; cases hg
          | some g0 =>
            rw [hemit] at hg
            simp only [Option.toList_some, List.mem_singleton] at hg
            subst hg
            exact emitGap_minutes hemit
    · cases hscan
      exact hgs
  | cons r rs ih =>
    intro cur gs gs' hgs hscan
    unfold scanRez at hscan
    split at hscan
    · cases hcl : clipLimit closing cur r.ora_start with
      | none => rw [hcl] at hscan; cases hscan
      | some lim =>
        rw [hcl] at hscan
        dsimp only at hscan
        refine ih _ _ _ ?_ hscan
        intro g hg
        rcases List.mem_append.mp hg with hg | hg
        · exact hgs g hg
        · cases hemit : emitGap cur lim d with
          | none => rw [hemit] at hg; cases hg
          | some g0 =>
            rw [hemit] at hg
            simp only [Option.toList_some, List.mem_singleton] at hg
            subst hg
            exact emitGap_minutes hemit
    · exact ih _ _ _ hgs hscan

/-- C7: every interval emitted by `calculeaza_gaps` has
`minute_disponibile` (a non-negative integer, the floored elapsed minutes)
at least the requested integer minimum duration, for every window,
reservation list and schedule string. -/
theorem c7_min_duration (startW endW durata : Int) (rez : List Rezervare)
    (program : List Char) (gs : List Gap)
    (hres : calculeaza_gapsV2 startW endW rez durata program = some gs) :
    ∀ g ∈ gs, durata ≤ g.minute_disponibile ∧ 0 ≤ g.minute_disponibile := by
  unfold calculeaza_gapsV2 at hres
  simp only at hres
  cases hfs : findSlot (curMin startW) none
      (openIntervals (parse_schedule program).1 (parse_schedule program).2) with
  | closed =>
    rw [hfs] at hres
    cases hres
    intro g hg
    cases hg
  | openNow cl =>
    rw [hfs] at hres
    dsimp only at hres
    split at hres
    · cases hres
      intro g hg
      cases hg
    · exact scanRez_minutes _ _ _ _ _ _ _ (by intro g hg; cases hg) hres
  | nextOpen nh cl =>
    rw [hfs] at hres
    dsimp only at hres
    split at hres
    · split at hres
      · cases hres
        intro g hg
        cases hg
      · exact scanRez_minutes _ _ _ _ _ _ _ (by intro g hg; cases hg) hres
    · cases hres

/-- Witness for C7: window `[0, 6000]`, no reservations, minimum 5;
the single emitted interval carries 100 available minutes. -/
theorem c7_min_duration_witness :
    (5 : Int) ≤ (⟨0, 6000, 100⟩ : Gap).minute_disponibile ∧
    (0 : Int) ≤ (⟨0, 6000, 100⟩ : Gap).minute_disponibile :=
  c7_min_duration 0 6000 5 [] defaultProgram [⟨0, 6000, 100⟩] (by decide)
    ⟨0, 6000, 100⟩ (by decide)

/-- A clipped limit never exceeds its cap (the next reservation start or
the window end). -/
theorem clipLimit_le {closing cur cap lim : Int}
    (h : clipLimit closing cur cap = some lim) : lim ≤ cap := by
  unfold clipLimit at h
  split at h
  · cases h; omega
  · split at h
    · dsimp only at h
      cases h
      split <;> omega
    · cases h

/-- Shape of an emitted gap: it starts at the cursor, ends at the limit,
and is nonempty. -/
theorem emitGap_shape {cur lim d : Int} {g : Gap}
    (h : emitGap cur lim d = some g) :
    g.start = cur ∧ g.endT = lim ∧ cur < lim := by
  unfold emitGap at h
  split at h
  · cases h
    rename_i hc
    exact ⟨rfl, rfl, hc.1⟩
  · cases h

/-- Scan invariant for C1: with well-formed reservations
(`ora_start < ora_sfarsit`) the cursor only moves forward past every
emitted end, so accumulated gaps stay nonempty, ordered and disjoint. -/
theorem scanRez_pairwise (closing d endW : Int) :
    ∀ (rs : List Rezervare) (cur : Int) (gs gs' : List Gap),
      (∀ r ∈ rs, r.ora_start < r.ora_sfarsit) →
      (∀ g ∈ gs, g.start < g.endT ∧ g.endT ≤ cur) →
      List.Pairwise GapRel gs →
      scanRez closing d endW rs cur gs = some gs' →
      List.Pairwise GapRel gs' := by
  intro rs
  induction rs with
  | nil =>
    intro cur gs gs' hwf hinv hpw hscan
    unfold scanRez at hscan
    split at hscan
    · cases hcl : clipLimit closing cur endW with
      | none => rw [hcl] at hscan; cases hscan
      | some lim =>
        rw [hcl] at hscan
        dsimp only at hscan
        cases hscan
        cases hemit : emitGap cur lim d with
        | none => simpa using hpw
        | some g =>
          obtain ⟨hgs, hge, hglt⟩ := emitGap_shape hemit
          refine List.pairwise_append.mpr ⟨hpw, by simp, ?_⟩
          intro a ha b hb
          simp only [Option.toList_some, List.mem_singleton] at hb
          subst hb
          obtain ⟨h1, h2⟩ := hinv a ha
          exact ⟨by omega, by omega⟩
    · cases hscan
      exact hpw
  | cons r rs ih =>
    intro cur gs gs' hwf hinv hpw hscan
    unfold scanRez at hscan
    have hwfr := hwf r (List.mem_cons_self r rs)
    have hwf' : ∀ x ∈ rs, x.ora_start < x.ora_sfarsit :=
      fun x hx => hwf x (List.mem_cons_of_mem r hx)
    split at hscan
    · rename_i hgt
      cases hcl : clipLimit closing cur r.ora_start with
      | none => rw [hcl] at hscan; cases hscan
      | some lim =>
        rw [hcl] at hscan
        dsimp only at hscan
        have hcap := clipLimit_le hcl
        refine ih _ _ _ hwf' ?_ ?_ hscan
        · intro g hg
          rcases List.mem_append.mp hg with hg | hg
          · obtain ⟨h1, h2⟩ := hinv g hg
            constructor
            · exact h1
            · split <;> omega
          · cases hemit : emitGap cur lim d with
            | none => rw [hemit] at hg; cases hg
            | some g0 =>
              rw [hemit] at hg
              simp only [Option.toList_some, List.mem_singleton] at hg
              subst hg
              obtain ⟨hgs, hge, hglt⟩ := emitGap_shape hemit
              constructor
              · omega
              · split <;> omega
        · cases hemit : emitGap cur lim d with
          | none => simpa using hpw
          | some g =>
            obtain ⟨hgs, hge, hglt⟩ := emitGap_shape hemit
            refine List.pairwise_append.mpr ⟨hpw, by simp, ?_⟩
            intro a ha b hb
            simp only [Option.toList_some, List.mem_singleton] at hb
            subst hb
            obtain ⟨h1, h2⟩ := hinv a ha
            exact ⟨by omega, by omega⟩
    · refine ih _ _ _ hwf' ?_ hpw hscan
      intro g hg
      obtain ⟨h1, h2⟩ := hinv g hg
      constructor
      · exact h1
      · split <;> omega

/-- Membership in a stable insertion is membership in the head or tail. -/
theorem insertRez_mem {x r : Rezervare} :
    ∀ {l : List Rezervare}, x ∈ insertRez r l → x = r ∨ x ∈ l := by
  intro l
  induction l with
  | nil =>
    intro h
    unfold insertRez at h
    cases h with
    | head => exact Or.inl rfl
    | tail _ h => cases h
  | cons s ss ih =>
    intro h
    unfold insertRez at h
    split at h
    · cases h with
      | head => exact Or.inl rfl
      | tail _ h => exact Or.inr h
    · cases h with
      | head => exact Or.inr (List.mem_cons_self _ _)
      | tail _ h =>
        rcases ih h with h | h
        · exact Or.inl h
        · exact Or.inr (List.mem_cons_of_mem s h)

/-- Sorting introduces no new reservations. -/
theorem sortRez_mem {x : Rezervare} :
    ∀ {l : List Rezervare}, x ∈ sortRez l → x ∈ l := by
  intro l
  induction l with
  | nil => intro h; cases h
  | cons r rs ih =>
    intro h
    rcases insertRez_mem h with h | h
    · subst h; exact List.mem_cons_self x rs
    · exact List.mem_cons_of_mem r (ih h)

/-- C1 (amended): for every window, operating-hours string and minimum
duration, and every reservation list whose entries are all well-formed
(`start < end`), any list returned by `calculeaza_gaps` is strictly ordered
by ascending `start` with pairwise non-overlapping intervals.  (The
unrestricted claim fails: see the counterexample with a `start > end`
reservation.) -/
theorem c1_gaps_ordered (startW endW durata : Int) (rez : List Rezervare)
    (program : List Char) (gs : List Gap)
    (hwf : ∀ r ∈ rez, r.ora_start < r.ora_sfarsit)
    (hres : calculeaza_gapsV2 startW endW rez durata program = some gs) :
    List.Pairwise GapRel gs := by
  have hwfs : ∀ r ∈ sortRez rez, r.ora_start < r.ora_sfarsit :=
    fun r hr => hwf r (sortRez_mem hr)
  unfold calculeaza_gapsV2 at hres
  simp only at hres
  cases hfs : findSlot (curMin startW) none
      (openIntervals (parse_schedule program).1 (parse_schedule program).2) with
  | closed =>
    rw [hfs] at hres
    cases hres
    exact List.Pairwise.nil
  | openNow cl =>
    rw [hfs] at hres
    dsimp only at hres
    split at hres
    · cases hres; exact List.Pairwise.nil
    · exact scanRez_pairwise _ _ _ _ _ _ _ hwfs (by intro g hg; cases hg)
        List.Pairwise.nil hres
  | nextOpen nh cl =>
    rw [hfs] at hres
    dsimp only at hres
    split at hres
    · split at hres
      · cases hres; exact List.Pairwise.nil
      · exact scanRez_pairwise _ _ _ _ _ _ _ hwfs (by intro g hg; cases hg)
          List.Pairwise.nil hres
    · cases hres

/-- Witness for C1 (amended): Scenario A's well-formed reservation list
yields an ordered, disjoint output. -/
theorem c1_gaps_ordered_witness :
    List.Pairwise GapRel [⟨36000, 37800, 30⟩, ⟨39600, 43200, 60⟩] :=
  c1_gaps_ordered 36000 43200 15 [⟨37800, 39600⟩] ("08:00 - 20:00".toList)
    [⟨36000, 37800, 30⟩, ⟨39600, 43200, 60⟩] (by decide) (by decide)

/-- Any next-opening hour produced by the normalisation loop lies strictly
after the current local hour (only `start_h > current_hour` candidates are
recorded). -/
theorem findSlot_nextOpen_gt {cm : Int} :
    ∀ (ivs : List (Int × Int)) (acc : Option (Int × Int)) {nh cl : Int},
      (∀ p, acc = some p → cm < p.1 * 60) →
      findSlot cm acc ivs = SlotResult.nextOpen nh cl → cm < nh * 60 := by
  intro ivs
  induction ivs with
  | nil =>
    intro acc nh cl hacc h
    unfold findSlot at h
    cases acc with
    | none => cases h
    | some p =>
      cases h
      exact hacc p rfl
  | cons se rest ih =>
    intro acc nh cl hacc h
    obtain ⟨s, e⟩ := se
    unfold findSlot at h
    split at h
    · cases h
    · refine ih _ ?_ h
      intro p hp
      split at hp
      · rename_i hs
        cases acc with
        | none =>
          cases hp
          omega
        | some q =>
          dsimp only at hp
          split at hp
          · cases hp; omega
          · cases hp; exact hacc _ rfl
      · exact hacc p hp

/-- The adjusted start at the next opening hour is strictly later than the
window start: the local clip to hour `nh` with `curMin < nh * 60` moves
forward within the same local day. -/
theorem replaceHourUTC_gt {startW nh : Int} (h : curMin startW < nh * 60) :
    startW < replaceHourUTC startW nh := by
  unfold replaceHourUTC localDayStart curMin toLocal RO_OFFSET_SECONDS at *
  omega

/-- C4 (amended): whenever `windowStart ≥ windowEnd`, `calculeaza_gaps`
never returns a non-empty list: it returns the empty list, except that an
out-of-range schedule hour can still make it raise before the window check
(see the counterexample).  For every reservation list, operating-hours
string and minimum duration. -/
theorem c4_inverted_window (startW endW durata : Int) (rez : List Rezervare)
    (program : List Char) (h : endW ≤ startW) :
    calculeaza_gapsV2 startW endW rez durata program = some [] ∨
    calculeaza_gapsV2 startW endW rez durata program = none := by
  unfold calculeaza_gapsV2
  simp only
  cases hfs : findSlot (curMin startW) none
      (openIntervals (parse_schedule program).1 (parse_schedule program).2) with
  | closed => exact Or.inl rfl
  | openNow cl =>
    left
    dsimp only
    rw [if_pos (by omega : startW ≥ endW)]
  | nextOpen nh cl =>
    dsimp only
    by_cases hr : 0 ≤ nh ∧ nh < 24
    · left
      rw [if_pos hr]
      have hgt := findSlot_nextOpen_gt _ none (by intro p hp; cases hp) hfs
      have hadj := replaceHourUTC_gt hgt
      rw [if_pos (by omega : replaceHourUTC startW nh ≥ endW)]
    · right
      rw [if_neg hr]

/-- Witness for C4 (amended) at an inverted window with an in-range
schedule. -/
theorem c4_inverted_window_witness :
    calculeaza_gapsV2 5000 200 [⟨300, 400⟩] 10 ("08:00 - 20:00".toList) = some [] ∨
    calculeaza_gapsV2 5000 200 [⟨300, 400⟩] 10 ("08:00 - 20:00".toList) = none :=
  c4_inverted_window 5000 200 10 [⟨300, 400⟩] ("08:00 - 20:00".toList) (by decide)

/-- The clipping step cannot raise when the active closing hour is 24
(no boundary) or a valid `replace` hour in `[0, 24)`. -/
theorem clipLimit_isSome {closing : Int}
    (h : closing = 24 ∨ (0 ≤ closing ∧ closing < 24)) (cur cap : Int) :
    (clipLimit closing cur cap).isSome = true := by
  unfold clipLimit
  by_cases h24 : closing = 24
  · rw [if_pos h24]; rfl
  · rw [if_neg h24, if_pos (by omega : 0 ≤ closing ∧ closing < 24)]; rfl

/-- The scan cannot raise when the active closing hour is 24 or in
`[0, 24)`. -/
theorem scanRez_isSome {closing : Int}
    (h : closing = 24 ∨ (0 ≤ closing ∧ closing < 24)) (d endW : Int) :
    ∀ (rs : List Rezervare) (cur : Int) (gs : List Gap),
      (scanRez closing d endW rs cur gs).isSome = true := by
  intro rs
  induction rs with
  | nil =>
    intro cur gs
    unfold scanRez
    split
    · cases hcl : clipLimit closing cur endW with
      | none =>
        have hs := clipLimit_isSome h cur endW
        rw [hcl] at hs
        cases hs
      | some lim => rfl
    · rfl
  | cons r rs ih =>
    intro cur gs
    unfold scanRez
    split
    · cases hcl : clipLimit closing cur r.ora_start with
      | none =>
        have hs := clipLimit_isSome h cur r.ora_start
        rw [hcl] at hs
        cases hs
      | some lim => exact ih _ _
    · exact ih _ _

/-- An `openNow` closing hour is the second component of one of the open
intervals. -/
theorem findSlot_openNow_mem {cm : Int} :
    ∀ (ivs : List (Int × Int)) (acc : Option (Int × Int)) {cl : Int},
      findSlot cm acc ivs = SlotResult.openNow cl → ∃ s, (s, cl) ∈ ivs := by
  intro ivs
  induction ivs with
  | nil =>
    intro acc cl h
    unfold findSlot at h
    cases acc with
    | none => cases h
    | some p => cases h
  | cons se rest ih =>
    intro acc cl h
    obtain ⟨s, e⟩ := se
    unfold findSlot at h
    split at h
    · cases h
      exact ⟨s, List.mem_cons_self _ _⟩
    · obtain ⟨s', hmem⟩ := ih _ h
      exact ⟨s', List.mem_cons_of_mem _ hmem⟩

/-- A `nextOpen` pair is one of the open intervals (or the incoming
accumulator, which is `none` at the top-level call). -/
theorem findSlot_nextOpen_mem {cm : Int} :
    ∀ (ivs : List (Int × Int)) (acc : Option (Int × Int)) {nh cl : Int},
      findSlot cm acc ivs = SlotResult.nextOpen nh cl →
      (nh, cl) ∈ ivs ∨ acc = some (nh, cl) := by
  intro ivs
  induction ivs with
  | nil =>
    intro acc nh cl h
    unfold findSlot at h
    cases acc with
    | none => cases h
    | some p =>
      cases h
      exact Or.inr (by rw [Prod.mk.eta])
  | cons se rest ih =>
    intro acc nh cl h
    obtain ⟨s, e⟩ := se
    unfold findSlot at h
    split at h
    · cases h
    · rcases ih _ h with hmem | hacc
      · exact Or.inl (List.mem_cons_of_mem _ hmem)
      · split at hacc
        · cases acc with
          | none =>
            cases hacc
            exact Or.inl (List.mem_cons_self _ _)
          | some q =>
            dsimp only at hacc
            split at hacc
            · cases hacc
              exact Or.inl (List.mem_cons_self _ _)
            · exact Or.inr hacc
        · exact Or.inr hacc

/-- C3 (amended): `parse_schedule` itself never raises — whenever its parse
attempt fails it returns the always-open pair `(0, 24)` — and
`calculeaza_gaps` returns normally for every window, reservation list and
minimum duration whenever the parsed hours lie in range
(`0 ≤ open < 24` and `0 ≤ close ≤ 24`, which covers every fallback).
The unrestricted claim fails: out-of-range parsed hours such as
`"25:00 - 30:00"` reach `replace(hour=25)` and raise (see the
counterexample). -/
theorem c3_no_raise_in_range :
    (∀ cs : List Char, parseAttempt cs = none → parse_schedule cs = (0, 24)) ∧
    ∀ (startW endW durata : Int) (rez : List Rezervare) (program : List Char),
      0 ≤ (parse_schedule program).1 → (parse_schedule program).1 < 24 →
      0 ≤ (parse_schedule program).2 → (parse_schedule program).2 ≤ 24 →
      (calculeaza_gapsV2 startW endW rez durata program).isSome = true := by
  constructor
  · intro cs h
    unfold parse_schedule
    split
    · rfl
    · rw [h]; rfl
  · intro startW endW durata rez program ho1 ho2 hc1 hc2
    unfold calculeaza_gapsV2
    simp only
    cases hfs : findSlot (curMin startW) none
        (openIntervals (parse_schedule program).1 (parse_schedule program).2) with
    | closed => rfl
    | openNow cl =>
      dsimp only
      have hcl : cl = 24 ∨ (0 ≤ cl ∧ cl < 24) := by
        obtain ⟨s, hmem⟩ := findSlot_openNow_mem _ _ hfs
        unfold openIntervals at hmem
        split_ifs at hmem
        · simp only [List.mem_singleton, Prod.mk.injEq] at hmem
          omega
        · simp only [List.mem_cons, List.not_mem_nil, or_false, Prod.mk.injEq] at hmem
          rcases hmem with ⟨h1, h2⟩ | ⟨h1, h2⟩ <;> omega
        · simp only [List.mem_singleton, Prod.mk.injEq] at hmem
          omega
      split
      · rfl
      · exact scanRez_isSome hcl _ _ _ _ _
    | nextOpen nh cl =>
      dsimp only
      have hpair : (nh, cl) ∈
          openIntervals (parse_schedule program).1 (parse_schedule program).2 := by
        rcases findSlot_nextOpen_mem _ _ hfs with h | h
        · exact h
        · cases h
      have hok : (0 ≤ nh ∧ nh < 24) ∧ (cl = 24 ∨ (0 ≤ cl ∧ cl < 24)) := by
        unfold openIntervals at hpair
        split_ifs at hpair
        · simp only [List.mem_singleton, Prod.mk.injEq] at hpair
          omega
        · simp only [List.mem_cons, List.not_mem_nil, or_false, Prod.mk.injEq] at hpair
          rcases hpair with ⟨h1, h2⟩ | ⟨h1, h2⟩ <;> omega
        · simp only [List.mem_singleton, Prod.mk.injEq] at hpair
          omega
      rw [if_pos hok.1]
      split
      · rfl
      · exact scanRez_isSome hok.2 _ _ _ _ _

/-- Witness for C3 (amended): the unparsable string `"garbage"` falls back
to `(0, 24)` and the gap computation returns normally. -/
theorem c3_no_raise_in_range_witness :
    parse_schedule ("garbage".toList) = (0, 24) ∧
    (calculeaza_gapsV2 0 3600 [⟨100, 200⟩] 0 ("garbage".toList)).isSome = true :=
  ⟨c3_no_raise_in_range.1 ("garbage".toList) (by decide),
   c3_no_raise_in_range.2 0 3600 0 [⟨100, 200⟩] ("garbage".toList)
     (by decide) (by decide) (by decide) (by decide)⟩

/-- With the active closing hour 24 (continuous operation) the V2/V3 scan
never clips and never raises: it computes exactly the main.py scan. -/
theorem scanRez_24_eq_scanMain (d endW : Int) :
    ∀ (rs : List Rezervare) (cur : Int) (gs : List Gap),
      scanRez 24 d endW rs cur gs = some (scanMain d endW rs cur gs) := by
  intro rs
  induction rs with
  | nil =>
    intro cur gs
    unfold scanRez scanMain clipLimit
    split
    · rw [if_pos rfl]
    · rfl
  | cons r rs ih =>
    intro cur gs
    unfold scanRez scanMain clipLimit
    split
    · rw [if_pos rfl]
      exact ih _ _
    · exact ih _ _

/-- The local hour-of-day (scaled by 60) always lies in `[0, 1440)`. -/
theorem curMin_bounds (t : Int) : 0 ≤ curMin t ∧ curMin t < 1440 := by
  unfold curMin toLocal RO_OFFSET_SECONDS
  omega

/-- C10: for every window with `windowStart < windowEnd`, every reservation
list and every minimum duration, the schedule-free `calculeaza_gaps` of
main.py returns exactly the gap list of the mainV2.py and mainV3.py
versions invoked with the default program `"00:00 - 24:00"` (which parse to
the always-open pair, select the `(0, 24)` interval with closing hour 24,
and so never clip and never raise). -/
theorem c10_main_eq_v2_v3 (startW endW durata : Int) (rez : List Rezervare)
    (h : startW < endW) :
    calculeaza_gapsV2 startW endW rez durata defaultProgram
        = some (calculeaza_gapsMain startW endW rez durata) ∧
    calculeaza_gapsV3 startW endW rez durata defaultProgram
        = some (calculeaza_gapsMain startW endW rez durata) := by
  have hp : parse_schedule defaultProgram = (0, 24) := by decide
  have hiv : openIntervals (0 : Int) 24 = [(0, 24)] := by decide
  have hb := curMin_bounds startW
  have hopen : (0 : Int) * 60 ≤ curMin startW ∧ curMin startW < 24 * 60 := by omega
  constructor
  · unfold calculeaza_gapsV2
    rw [hp]
    simp only
    rw [hiv]
    unfold findSlot
    rw [if_pos hopen]
    dsimp only
    rw [if_neg (by omega : ¬ startW ≥ endW)]
    unfold calculeaza_gapsMain
    exact scanRez_24_eq_scanMain _ _ _ _ _
  · unfold calculeaza_gapsV3
    rw [hp]
    simp only
    rw [hiv]
    unfold findSlot3
    rw [if_pos hopen]
    dsimp only
    rw [if_neg (by omega : ¬ startW ≥ endW)]
    unfold calculeaza_gapsMain
    exact scanRez_24_eq_scanMain _ _ _ _ _

/-- Witness for C10 at a concrete window and reservation list. -/
theorem c10_main_eq_v2_v3_witness :
    calculeaza_gapsV2 0 6000 [⟨1000, 2000⟩] 7 defaultProgram
        = some (calculeaza_gapsMain 0 6000 [⟨1000, 2000⟩] 7) ∧
    calculeaza_gapsV3 0 6000 [⟨1000, 2000⟩] 7 defaultProgram
        = some (calculeaza_gapsMain 0 6000 [⟨1000, 2000⟩] 7) :=
  c10_main_eq_v2_v3 0 6000 7 [⟨1000, 2000⟩] (by decide)

end QuickWash
